import Mathlib

namespace DBLogger

/-! ### Definitions: shallow embedding of the source files -/

/-- A stored row: an opaque primary key assigned by storage plus the
natural key of the dimension (`path`, `name`, or the function composite
key).  Mirrors the rows returned by the model layer. -/
structure Row (κ : Type) where
  pk : Nat
  key : κ
deriving DecidableEq

/-- A dimension table with a uniqueness constraint on the natural key:
the list of rows in insertion order plus the next serial primary key. -/
structure Table (κ : Type) where
  rows : List (Row κ)
  nextPk : Nat
deriving DecidableEq

/-- An empty table, serial counter starting at 1. -/
def Table.empty {κ : Type} : Table κ := ⟨[], 1⟩

/-- Errors a storage call can produce: a uniqueness violation raised by
the INSERT, or "fetchone returned no row" (the `ON CONFLICT DO NOTHING
RETURNING *` path, where `cls(rowdata=None)` yields no valid row). -/
inductive DBError
  | uniqueViolation
  | noRow
deriving DecidableEq

/-- A storage round-trip issued by the model layer, used to count calls. -/
inductive StoreOp (κ : Type)
  | loadOp (k : κ)
  | createOp (k : κ)
deriving DecidableEq

/-- Number of `create` calls in a list of storage operations. -/
def countCreates {κ : Type} (ops : List (StoreOp κ)) : Nat :=
  (ops.filter fun o => match o with | .createOp _ => true | _ => false).length

/-- SyncModel.load (sync_models/model.py lines 12-21): SELECT by the
natural key, returning the first matching row or nothing. -/
def load {κ : Type} [DecidableEq κ] (t : Table κ) (k : κ) : Option (Row κ) :=
  t.rows.find? (fun r => r.key = k)

/-- SyncModel.create (sync_models/model.py lines 31-50): INSERT the new
row.  If the key is already present the uniqueness constraint fires:
with `ignore_conflicts = false` (the default) the INSERT raises; with
`ignore_conflicts = true` the row is skipped and `fetchone` returns no
row (there is no re-select).  Otherwise the row is inserted and
returned (`RETURNING *`). -/
def create {κ : Type} [DecidableEq κ] (t : Table κ) (ignore_conflicts : Bool) (k : κ) :
    Except DBError (Row κ × Table κ) :=
  if t.rows.any (fun r => r.key = k) then
    if ignore_conflicts then Except.error DBError.noRow
    else Except.error DBError.uniqueViolation
  else
    let row : Row κ := ⟨t.nextPk, k⟩
    Except.ok (row, ⟨t.rows ++ [row], t.nextPk + 1⟩)

/-- SyncModel.get_or_create (sync_models/model.py lines 52-57): `load`
the key; if absent, `create` it.  Note that `create` is called without
`ignore_conflicts` (so it defaults to `false`) and there is no
re-select after a conflict.  Also returns the storage operations
issued, for counting round-trips. -/
def get_or_create {κ : Type} [DecidableEq κ] (t : Table κ) (k : κ) :
    Except DBError (Row κ × Table κ × List (StoreOp κ)) :=
  match load t k with
  | some item => Except.ok (item, t, [StoreOp.loadOp k])
  | none =>
    match create t false k with
    | Except.ok (row, t2) => Except.ok (row, t2, [StoreOp.loadOp k, StoreOp.createOp k])
    | Except.error e => Except.error e

/-- get_or_create under a concurrent duplicate: the `load` runs against
the table state `tLoad`, but by the time the `create` executes another
process may have inserted the same key, so the `create` runs against a
possibly different table state `tIns`.  The code path is exactly
SyncModel.get_or_create. -/
def get_or_create_race {κ : Type} [DecidableEq κ] (tLoad tIns : Table κ) (k : κ) :
    Except DBError (Row κ × Table κ × List (StoreOp κ)) :=
  match load tLoad k with
  | some item => Except.ok (item, tIns, [StoreOp.loadOp k])
  | none =>
    match create tIns false k with
    | Except.ok (row, t2) => Except.ok (row, t2, [StoreOp.loadOp k, StoreOp.createOp k])
    | Except.error e => Except.error e

/-- Dictionary lookup in one of the handler's in-memory caches
(`self.xxx_cache.get(key, None)`). -/
def cacheGet {α : Type} (c : List (String × α)) (k : String) : Option α :=
  (c.find? (fun p => p.1 = k)).map Prod.snd

/-- The per-dimension resolution pattern of DBLogHandler.async_emit
(e.g. lines 87-90 for the source dimension): check the cache under the
cache key `ck`; on a miss, `get_or_create` against the table under the
database natural key `k` and store the result in the cache.  Returns
the storage operations issued. -/
def resolveDim {κ : Type} [DecidableEq κ] (c : List (String × Row κ)) (t : Table κ)
    (ck : String) (k : κ) :
    Except DBError (Row κ × List (String × Row κ) × Table κ × List (StoreOp κ)) :=
  match cacheGet c ck with
  | some r => Except.ok (r, c, t, [])
  | none =>
    match get_or_create t k with
    | Except.ok (r, t2, ops) => Except.ok (r, (ck, r) :: c, t2, ops)
    | Except.error e => Except.error e

/-- A logging record as consumed by DBLogHandler.async_emit: the fields
of `logging.LogRecord` that the handler reads.  `msg` stands for the
rendered message returned by `record.getMessage()`; `created` is the
timestamp; `tags` is `none` when the record has no `tags` attribute at
all (so that `getattr(record, 'tags', set())` falls back to the empty
set). -/
structure LogRecord where
  name : String
  pathname : String
  funcName : String
  lineno : Nat
  levelno : Nat
  msg : String
  process : Nat
  created : Nat
  tags : Option (List String)
deriving DecidableEq

/-- The database natural key of a LogFunction row: the kwargs passed to
LogFunction.get_or_create on async_handler.py lines 95-100. -/
structure FuncKey where
  name : String
  line_number : Nat
  source_id : Nat
deriving DecidableEq

/-- A LogEntry row as inserted by LogEntry.create (async_handler.py
lines 114-123). -/
structure LogEntry where
  pk : Nat
  level : Nat
  message : String
  pid : Nat
  time : Nat
  function_id : Nat
  logger_id : Nat
  hostname_id : Nat
deriving DecidableEq

/-- The storage-side state: one table per dimension, the LogEntry fact
table, and the LogEntry-Tag association table.  `entryWriteAttempts`
counts how many times a LogEntry INSERT was attempted and
`addTagsCalls` records each `add_tags` invocation (entry pk, tag pks);
both are observation fields used only by the theorems. -/
structure DBState where
  srcT : Table String
  funcT : Table FuncKey
  loggerT : Table String
  hostT : Table String
  tagT : Table String
  entries : List LogEntry
  entryTags : List (Nat × Nat)
  nextEntryPk : Nat
  entryWriteAttempts : Nat
  addTagsCalls : List (Nat × List Nat)
deriving DecidableEq

/-- The handler's in-memory caches (async_handler.py lines 27-31). -/
structure Caches where
  src_cache : List (String × Row String)
  func_cache : List (String × Row FuncKey)
  logger_cache : List (String × Row String)
  host_cache : List (String × Row String)
  tag_cache : List (String × Row String)
deriving DecidableEq

/-- The state threaded through async_emit: database, caches, and the
list of records for which `self.handleError(record)` was invoked (the
except-branch on async_handler.py lines 137-138). -/
structure ProcState where
  db : DBState
  caches : Caches
  errors : List LogRecord
deriving DecidableEq

/-- The handler's configuration and external environment:
`logger_name` is the `name` passed to `DBLogHandler.__init__`;
`hostname` is what `socket.gethostname()` returns; `writeFails r`
injects a storage exception at the `LogEntry.create` call while
processing `r` (modelling a transient write failure); `connectFails`
makes the lazy `connect` call in log_emitter raise. -/
structure Env where
  logger_name : String
  hostname : String
  writeFails : LogRecord → Bool
  connectFails : Bool

/-- The function cache key built on async_handler.py line 92:
`f'{record.name}.{record.funcName}:{record.lineno}@{src.path}'`.
Note it uses the record's own `name`, not the handler's
`logger_name`. -/
def func_key (record : LogRecord) (src_path : String) : String :=
  record.name ++ "." ++ record.funcName ++ ":" ++ toString record.lineno ++ "@" ++ src_path

/-- The tag resolution loop of async_emit (lines 125-133): resolve each
tag name through the tag cache, collecting the resolved rows in order.
On a storage error the partially updated cache and table at the raise
point are returned (the exception propagates to the per-record
handler). -/
def resolveTags (c : List (String × Row String)) (t : Table String) :
    List String →
      Except (List (String × Row String) × Table String)
        (List (Row String) × List (String × Row String) × Table String)
  | [] => Except.ok ([], c, t)
  | n :: ns =>
    match resolveDim c t n n with
    | Except.error _ => Except.error (c, t)
    | Except.ok (tag, c2, t2, _) =>
      match resolveTags c2 t2 ns with
      | Except.error p => Except.error p
      | Except.ok (tags, c3, t3) => Except.ok (tag :: tags, c3, t3)

/-- The dimension resolution phase of async_emit (lines 87-112):
source, then function, then logger, then host, each through its cache
with get_or-create on a miss.  An error carries the state at the raise
point (all mutations made before the exception persist).  The logger
dimension uses the handler's configured `logger_name`; the host
dimension uses the process hostname. -/
def resolveDims (env : Env) (st : ProcState) (record : LogRecord) :
    Except ProcState (Row String × Row FuncKey × Row String × Row String × ProcState) :=
  match resolveDim st.caches.src_cache st.db.srcT record.pathname record.pathname with
  | Except.error _ => Except.error st
  | Except.ok (src, sC, sT, _) =>
    let st1 : ProcState :=
      { st with db := { st.db with srcT := sT }, caches := { st.caches with src_cache := sC } }
    match resolveDim st1.caches.func_cache st1.db.funcT (func_key record src.key)
        ⟨record.name ++ "." ++ record.funcName, record.lineno, src.pk⟩ with
    | Except.error _ => Except.error st1
    | Except.ok (func, fC, fT, _) =>
      let st2 : ProcState :=
        { st1 with db := { st1.db with funcT := fT },
                   caches := { st1.caches with func_cache := fC } }
      match resolveDim st2.caches.logger_cache st2.db.loggerT env.logger_name env.logger_name with
      | Except.error _ => Except.error st2
      | Except.ok (lgr, lC, lT, _) =>
        let st3 : ProcState :=
          { st2 with db := { st2.db with loggerT := lT },
                     caches := { st2.caches with logger_cache := lC } }
        match resolveDim st3.caches.host_cache st3.db.hostT env.hostname env.hostname with
        | Except.error _ => Except.error st3
        | Except.ok (host, hC, hT, _) =>
          let st4 : ProcState :=
            { st3 with db := { st3.db with hostT := hT },
                       caches := { st3.caches with host_cache := hC } }
          Except.ok (src, func, lgr, host, st4)

/-- DBLogHandler.async_emit (async_handler.py lines 85-138): resolve
the four dimensions, insert the LogEntry, resolve the record's tags
(`getattr(record, 'tags', set())`), and associate them via
`entry.add_tags`.  The whole body sits in a try/except that delegates
any exception to `self.handleError(record)` and returns, so a failure
is absorbed at the per-record boundary with all mutations made before
the raise kept. -/
def async_emit (env : Env) (st : ProcState) (record : LogRecord) : ProcState :=
  match resolveDims env st record with
  | Except.error stE => { stE with errors := stE.errors ++ [record] }
  | Except.ok (_src, func, lgr, host, st4) =>
    let db5 : DBState :=
      { st4.db with entryWriteAttempts := st4.db.entryWriteAttempts + 1 }
    if env.writeFails record then
      { st4 with db := db5, errors := st4.errors ++ [record] }
    else
      let entry : LogEntry :=
        ⟨db5.nextEntryPk, record.levelno, record.msg, record.process, record.created,
         func.pk, lgr.pk, host.pk⟩
      let db6 : DBState :=
        { db5 with entries := db5.entries ++ [entry], nextEntryPk := db5.nextEntryPk + 1 }
      let st5 : ProcState := { st4 with db := db6 }
      match resolveTags st5.caches.tag_cache st5.db.tagT (record.tags.getD []) with
      | Except.error (tC, tT) =>
        { st5 with db := { st5.db with tagT := tT },
                   caches := { st5.caches with tag_cache := tC },
                   errors := st5.errors ++ [record] }
      | Except.ok (tags, tC, tT) =>
        { st5 with
          db := { st5.db with
                  tagT := tT,
                  entryTags := st5.db.entryTags ++ tags.map (fun tg => (entry.pk, tg.pk)),
                  addTagsCalls := st5.db.addTagsCalls ++ [(entry.pk, tags.map (fun tg => tg.pk))] },
          caches := { st5.caches with tag_cache := tC } }

/-- Processing one drained batch: the `for record in q` loop of
log_emitter (async_handler.py lines 80-81). -/
def processBatch (env : Env) (st : ProcState) (q : List LogRecord) : ProcState :=
  q.foldl (async_emit env) st

/-- Cache coherence invariant: every cached row is present in its
table, and for the string-keyed dimensions the cached row's natural key
is its cache key. -/
def CacheOK (st : ProcState) : Prop :=
  (∀ p ∈ st.caches.src_cache, p.2 ∈ st.db.srcT.rows ∧ p.2.key = p.1)
  ∧ (∀ p ∈ st.caches.func_cache, p.2 ∈ st.db.funcT.rows)
  ∧ (∀ p ∈ st.caches.logger_cache, p.2 ∈ st.db.loggerT.rows ∧ p.2.key = p.1)
  ∧ (∀ p ∈ st.caches.host_cache, p.2 ∈ st.db.hostT.rows ∧ p.2.key = p.1)
  ∧ (∀ p ∈ st.caches.tag_cache, p.2 ∈ st.db.tagT.rows ∧ p.2.key = p.1)

/-- The database state of a freshly constructed handler. -/
def initDB : DBState :=
  ⟨Table.empty, Table.empty, Table.empty, Table.empty, Table.empty, [], [], 1, 0, []⟩

/-- Empty caches, as on a freshly constructed handler. -/
def emptyCaches : Caches := ⟨[], [], [], [], []⟩

/-- Fresh processing state. -/
def initProc : ProcState := ⟨initDB, emptyCaches, []⟩

/-- A handler configured with logger name "app" on host "host1", with a
storage backend that never fails. -/
def envApp : Env := ⟨"app", "host1", fun _ => false, false⟩

/-- A record whose own `name` field ("other") differs from the
handler's configured logger name ("app"), and which has no `tags`
attribute. -/
def rOther : LogRecord := ⟨"other", "/a.py", "f", 1, 20, "m", 7, 100, none⟩

/-- The two kinds of threads in the model: the asyncio event-loop
thread (which runs the drain task and may call emit), and any other
producer thread calling emit. -/
inductive Thread
  | eventLoop
  | producer
deriving DecidableEq

/-- Program counter of one spawned log_emitter task, at the statement
granularity of async_handler.py lines 66-83. -/
inductive DrainPC
  | start
  | connecting
  | loopCheck
  | swapStep
  | processing (batch : List LogRecord)
  | clearing
  | done
  | crashed
deriving DecidableEq

/-- An interleaving event: a call to `emit` from a given thread, or the
i-th spawned drain task executing its next statement. -/
inductive Event
  | push (t : Thread) (record : LogRecord)
  | drain (i : Nat)

/-- Global system state: the shared processing state (database, caches,
error reports), the record queue, the `self.emitter` field (`true` iff
it holds a task object), the `self.db` field (`true` iff connected),
the lock owner (set only by the connect section, the one lock section
spanning an await), the program counters of all spawned drain tasks,
and two observation fields: the records accepted so far and the
batches drained so far. -/
structure Sys where
  proc : ProcState
  queue : List LogRecord
  emitter : Bool
  dbConn : Bool
  lockOwner : Option Thread
  tasks : List DrainPC
  pushed : List LogRecord
  batches : List (List LogRecord)
deriving DecidableEq

/-- One statement of the log_emitter task (async_handler.py lines
66-83): lazily connect (acquiring the lock across the await, leaking it
if the connect raises), re-check the queue without the lock (line 74),
atomically swap the queue for an empty one under the lock (lines
75-78), process the drained batch one record at a time (lines 80-81),
and finally clear `self.emitter` without the lock (line 83). -/
def drainStep (env : Env) (s : Sys) (pc : DrainPC) : Sys × DrainPC :=
  match pc with
  | .start =>
    if s.dbConn then (s, .loopCheck)
    else ({ s with lockOwner := some Thread.eventLoop }, .connecting)
  | .connecting =>
    if env.connectFails then (s, .crashed)
    else ({ s with dbConn := true, lockOwner := none }, .loopCheck)
  | .loopCheck => if s.queue.isEmpty then (s, .clearing) else (s, .swapStep)
  | .swapStep =>
    ({ s with queue := [], batches := s.batches ++ [s.queue] }, .processing s.queue)
  | .processing [] => (s, .loopCheck)
  | .processing (r :: rest) =>
    ({ s with proc := async_emit env s.proc r }, .processing rest)
  | .clearing => ({ s with emitter := false }, .done)
  | .done => (s, .done)
  | .crashed => (s, .crashed)

/-- One interleaving step.  A push (DBLogHandler.emit, lines 57-64)
appends the record and, if `self.emitter` is None, spawns a new
log_emitter task and stores it in `self.emitter` — all inside one lock
section, so atomic here; it is enabled only when the lock is free or
already held by the calling thread (the RLock is reentrant).  A blocked
push leaves the state unchanged (the caller is still waiting in
`acquire`).  A drain event lets the i-th spawned task run its next
statement. -/
def step (env : Env) (s : Sys) (e : Event) : Sys :=
  match e with
  | .push t r =>
    if s.lockOwner = none ∨ s.lockOwner = some t then
      let s1 : Sys := { s with queue := s.queue ++ [r], pushed := s.pushed ++ [r] }
      if s1.emitter then s1
      else { s1 with emitter := true, tasks := s1.tasks ++ [DrainPC.start] }
    else s
  | .drain i =>
    match s.tasks[i]? with
    | none => s
    | some pc =>
      let p := drainStep env s pc
      { p.1 with tasks := p.1.tasks.set i p.2 }

/-- The state of a freshly constructed handler: empty queue, no task,
not connected, lock free. -/
def initSys : Sys := ⟨initProc, [], false, false, none, [], [], []⟩

/-- Run a trace of interleaving events from the initial state. -/
def run (env : Env) (tr : List Event) : Sys := tr.foldl (step env) initSys

/-- Which drain-task statements execute under the handler lock, as
transcribed from the acquire/release pairs in async_handler.py: the
connect (lines 70-72) and the queue swap (lines 75-78) do; the loop
condition (line 74), record processing (lines 80-81) and the
`self.emitter = None` clear (line 83) do not. -/
def drainHoldsLock : DrainPC → Bool
  | .connecting => true
  | .swapStep => true
  | _ => false

/-- The entire body of emit (lines 58-63) runs under the handler lock
(acquire on line 58, release on line 64). -/
def pushHoldsLock : Bool := true

/-- Records still to be processed by a task. -/
def pendPc : DrainPC → Nat
  | .processing b => b.length
  | _ => 0

/-- Whether a task is live (spawned, not yet exited or crashed): it is
counted as being in the Draining state. -/
def actPc : DrainPC → Nat
  | .done => 0
  | .crashed => 0
  | _ => 1

/-- Sum of a per-task measure over all spawned tasks. -/
def sumPc (f : DrainPC → Nat) (ts : List DrainPC) : Nat := (ts.map f).sum

/-- Every accepted record is in exactly one drained batch or still
queued, and the number of entry writes attempted plus the records still
queued or in flight equals the number of accepted records. -/
def InvC3 (s : Sys) : Prop :=
  s.batches.flatten ++ s.queue = s.pushed
  ∧ s.proc.db.entryWriteAttempts + s.queue.length + sumPc pendPc s.tasks = s.pushed.length

/-- At most one live drain task, and none at all while `self.emitter`
is None. -/
def InvC5 (s : Sys) : Prop :=
  sumPc actPc s.tasks ≤ 1 ∧ (s.emitter = false → sumPc actPc s.tasks = 0)

/-- A record accepted by the handler from the event-loop thread. -/
def recA : LogRecord := ⟨"app", "/a.py", "f", 1, 20, "a", 7, 100, none⟩

/-- A second accepted record. -/
def recB : LogRecord := ⟨"app", "/a.py", "g", 2, 30, "b", 7, 101, none⟩

/-- A complete run: two accepts followed by the drain task running to
completion (connect, swap, process both records, re-check, clear). -/
def trIdle : List Event :=
  [Event.push Thread.eventLoop recA, Event.push Thread.eventLoop recB,
   Event.drain 0, Event.drain 0, Event.drain 0, Event.drain 0, Event.drain 0,
   Event.drain 0, Event.drain 0, Event.drain 0, Event.drain 0]

/-- The trace that leaves the drain task suspended inside
`await connect` while holding the handler lock. -/
def trConn : List Event := [Event.push Thread.eventLoop recA, Event.drain 0]

/-- A handler whose storage connect raises. -/
def envFail : Env := ⟨"app", "host1", fun _ => false, true⟩

/-- One accept, then the drain task acquires the lock and the connect
raises. -/
def trFail : List Event :=
  [Event.push Thread.eventLoop recA, Event.drain 0, Event.drain 0]

/-- Invariant of any run whose storage connect fails: nothing is ever
processed, every accepted record stays queued, at most one task is ever
spawned and it never gets past the connect, the emitter flag tracks
that task forever, and the lock is only ever free or held by the
event-loop thread. -/
def InvC9 (s : Sys) : Prop :=
  s.proc = initProc
  ∧ s.batches = []
  ∧ s.queue = s.pushed
  ∧ s.dbConn = false
  ∧ s.tasks.length ≤ 1
  ∧ (∀ pc ∈ s.tasks, pc = DrainPC.start ∨ pc = DrainPC.connecting ∨ pc = DrainPC.crashed)
  ∧ (s.emitter = true ↔ s.tasks ≠ [])
  ∧ (s.lockOwner = none ∨ s.lockOwner = some Thread.eventLoop)

/-! ### Theorems -/

theorem load_key {κ : Type} [DecidableEq κ] {t : Table κ} {k : κ} {r : Row κ}
    (h : load t k = some r) : r.key = k := by
  have := List.find?_some h
  simpa using this

theorem load_mem {κ : Type} [DecidableEq κ] {t : Table κ} {k : κ} {r : Row κ}
    (h : load t k = some r) : r ∈ t.rows :=
  List.mem_of_find?_eq_some h

/-- get_or_create always succeeds when it runs against a single
consistent table state: on a hit the loaded row is returned, on a miss
the freshly inserted row is returned, and at most one `create` is
issued. -/
theorem get_or_create_total {κ : Type} [DecidableEq κ] (t : Table κ) (k : κ) :
    ∃ r t2 ops, get_or_create t k = Except.ok (r, t2, ops) ∧
      r.key = k ∧ r ∈ t2.rows ∧ t.rows <+: t2.rows ∧ countCreates ops ≤ 1 := by
  unfold get_or_create
  cases hl : load t k with
  | some r =>
    exact ⟨r, t, _, rfl, load_key hl, load_mem hl, List.prefix_rfl, by simp [countCreates]⟩
  | none =>
    have hnone : ∀ x ∈ t.rows, ¬ (x.key = k) := by
      intro x hx hk
      have := List.find?_eq_none.mp hl x hx
      simp [hk] at this
    have hany : t.rows.any (fun r => r.key = k) = false := by
      simp only [List.any_eq_false, decide_eq_true_eq]
      exact hnone
    refine ⟨⟨t.nextPk, k⟩, ⟨t.rows ++ [⟨t.nextPk, k⟩], t.nextPk + 1⟩,
      [StoreOp.loadOp k, StoreOp.createOp k], ?_, rfl, ?_, ?_, ?_⟩
    · simp [create, hany]
    · simp
    · exact ⟨[⟨t.nextPk, k⟩], rfl⟩
    · simp [countCreates]

/-- The resolution pattern always succeeds against a consistent state. -/
theorem resolveDim_total {κ : Type} [DecidableEq κ] (c : List (String × Row κ))
    (t : Table κ) (ck : String) (k : κ) :
    ∃ r c2 t2 ops, resolveDim c t ck k = Except.ok (r, c2, t2, ops) := by
  unfold resolveDim
  cases hc : cacheGet c ck with
  | some r => exact ⟨r, c, t, [], rfl⟩
  | none =>
    obtain ⟨r, t2, ops, h, -⟩ := get_or_create_total t k
    exact ⟨r, (ck, r) :: c, t2, ops, by rw [h]⟩

/-- Claim C1: the spec requires that `create` hitting a uniqueness
violation because the row already exists is absorbed by
insert-ignore-on-conflict followed by a mandatory re-select via `load`,
so that get_or_create never raises under a concurrent duplicate.  The
code does not do this: `get_or_create` calls `create` with
`ignore_conflicts` left at its default `false` and performs no
re-select, so when the key ("hostA") is absent at `load` time but has
been inserted by another process before the `create` executes, the
uniqueness violation propagates to the caller. -/
theorem get_or_create_race_uniqueViolation :
    get_or_create_race (Table.empty : Table String)
      (⟨[⟨1, "hostA"⟩], 2⟩ : Table String) "hostA"
      = Except.error DBError.uniqueViolation := by
  rfl

/-- Claim C7: for every dimension and every natural key, resolving the
same natural key twice within one process yields the same resolved row
both times and issues at most one `create` call to storage: the first
resolution populates the cache, and the second resolution of that key
is served from the cache with no storage call at all. -/
theorem resolve_idempotent_single_create {κ : Type} [DecidableEq κ]
    {c : List (String × Row κ)} {t : Table κ} {ck : String} {k : κ}
    {r : Row κ} {c2 : List (String × Row κ)} {t2 : Table κ} {ops : List (StoreOp κ)}
    (h : resolveDim c t ck k = Except.ok (r, c2, t2, ops)) :
    resolveDim c2 t2 ck k = Except.ok (r, c2, t2, []) ∧ countCreates ops ≤ 1 := by
  unfold resolveDim at h ⊢
  cases hc : cacheGet c ck with
  | some r0 =>
    rw [hc] at h
    obtain ⟨rfl, rfl, rfl, rfl⟩ : r0 = r ∧ c = c2 ∧ t = t2 ∧ [] = ops := by
      cases h; exact ⟨rfl, rfl, rfl, rfl⟩
    rw [hc]
    exact ⟨rfl, by simp [countCreates]⟩
  | none =>
    rw [hc] at h
    obtain ⟨r0, t0, ops0, hg, hkey, hmem, hpre, hcnt⟩ := get_or_create_total t k
    rw [hg] at h
    obtain ⟨rfl, rfl, rfl, rfl⟩ : r0 = r ∧ (ck, r0) :: c = c2 ∧ t0 = t2 ∧ ops0 = ops := by
      cases h; exact ⟨rfl, rfl, rfl, rfl⟩
    constructor
    · have : cacheGet ((ck, r0) :: c) ck = some r0 := by
        simp [cacheGet]
      rw [this]
    · exact hcnt

/-- Witness for C7 at a concrete input: resolving key "x" in an empty
cache over an empty table issues one load and one create; resolving it
again is served from the cache with no storage call. -/
theorem resolve_idempotent_single_create_witness :
    resolveDim [("x", (⟨1, "x"⟩ : Row String))] (⟨[⟨1, "x"⟩], 2⟩ : Table String) "x" "x"
        = Except.ok (⟨1, "x"⟩, [("x", ⟨1, "x"⟩)], ⟨[⟨1, "x"⟩], 2⟩, [])
      ∧ countCreates [StoreOp.loadOp "x", StoreOp.createOp "x"] ≤ 1 :=
  resolve_idempotent_single_create
    (by rfl :
      resolveDim ([] : List (String × Row String)) (Table.empty : Table String) "x" "x"
        = Except.ok (⟨1, "x"⟩, [("x", ⟨1, "x"⟩)], ⟨[⟨1, "x"⟩], 2⟩,
            [StoreOp.loadOp "x", StoreOp.createOp "x"]))

theorem resolveTags_total (ns : List String) (c : List (String × Row String))
    (t : Table String) :
    ∃ tags c2 t2, resolveTags c t ns = Except.ok (tags, c2, t2) := by
  induction ns generalizing c t with
  | nil => exact ⟨[], c, t, rfl⟩
  | cons n ns ih =>
    obtain ⟨r, c2, t2, ops, h⟩ := resolveDim_total c t n n
    obtain ⟨tags, c3, t3, h2⟩ := ih c2 t2
    refine ⟨r :: tags, c3, t3, ?_⟩
    unfold resolveTags
    rw [h]
    dsimp only
    rw [h2]

/-- Dimension resolution always succeeds and leaves the entry table,
the error list, the tag table and the observation fields untouched. -/
theorem resolveDims_total (env : Env) (st : ProcState) (record : LogRecord) :
    ∃ src func lgr host st4,
      resolveDims env st record = Except.ok (src, func, lgr, host, st4)
      ∧ st4.errors = st.errors
      ∧ st4.db.entries = st.db.entries
      ∧ st4.db.entryWriteAttempts = st.db.entryWriteAttempts
      ∧ st4.db.entryTags = st.db.entryTags
      ∧ st4.db.addTagsCalls = st.db.addTagsCalls
      ∧ st4.db.nextEntryPk = st.db.nextEntryPk
      ∧ st4.db.tagT = st.db.tagT
      ∧ st4.caches.tag_cache = st.caches.tag_cache := by
  unfold resolveDims
  obtain ⟨src, sC, sT, sOps, hs⟩ :=
    resolveDim_total st.caches.src_cache st.db.srcT record.pathname record.pathname
  rw [hs]
  dsimp only
  obtain ⟨func, fC, fT, fOps, hf⟩ :=
    resolveDim_total st.caches.func_cache st.db.funcT (func_key record src.key)
      ⟨record.name ++ "." ++ record.funcName, record.lineno, src.pk⟩
  rw [hf]
  dsimp only
  obtain ⟨lgr, lC, lT, lOps, hl⟩ :=
    resolveDim_total st.caches.logger_cache st.db.loggerT env.logger_name env.logger_name
  rw [hl]
  dsimp only
  obtain ⟨host, hC, hT, hOps, hh⟩ :=
    resolveDim_total st.caches.host_cache st.db.hostT env.hostname env.hostname
  rw [hh]
  dsimp only
  exact ⟨src, func, lgr, host, _, rfl, rfl, rfl, rfl, rfl, rfl, rfl, rfl, rfl⟩

/-- Per-record behaviour of async_emit: exactly one entry write is
attempted; on success exactly one LogEntry carrying the record's
message is appended; on an injected write failure no entry is appended
and the record is delegated to handleError instead.  async_emit itself
is a total function — the per-record try/except never lets an
exception escape. -/
theorem async_emit_record (env : Env) (st : ProcState) (record : LogRecord) :
    ((async_emit env st record).db.entries.map (fun e => e.message)
        = st.db.entries.map (fun e => e.message)
          ++ (if env.writeFails record then [] else [record.msg]))
    ∧ ((async_emit env st record).errors
        = st.errors ++ (if env.writeFails record then [record] else []))
    ∧ (async_emit env st record).db.entryWriteAttempts
        = st.db.entryWriteAttempts + 1 := by
  obtain ⟨src, func, lgr, host, st4, hres, hErr, hEnt, hAtt, hETags, hCalls, hPk, hTagT, hTagC⟩ :=
    resolveDims_total env st record
  unfold async_emit
  rw [hres]
  dsimp only
  by_cases hw : env.writeFails record
  · simp [hw, hErr, hEnt, hAtt]
  · simp only [hw, if_neg, Bool.false_eq_true, ↓reduceIte]
    obtain ⟨tags, tC, tT, htags⟩ :=
      resolveTags_total (record.tags.getD []) st4.caches.tag_cache st4.db.tagT
    rw [htags]
    dsimp only
    simp [hErr, hEnt, hAtt]

/-- Claim C2: for every batch drained by the background task, a failure
while processing one record is caught at the per-record boundary and
reported via `handleError`, and does not abort the batch: the entries
written by a batch are exactly those of its non-failing records, in
order, so all records preceding and following a failing record are
still processed and written. -/
theorem batch_survives_record_failure (env : Env) (st : ProcState) (q : List LogRecord) :
    ((processBatch env st q).db.entries.map (fun e => e.message)
        = st.db.entries.map (fun e => e.message)
          ++ (q.filter (fun r => ! env.writeFails r)).map (fun r => r.msg))
    ∧ ((processBatch env st q).errors
        = st.errors ++ q.filter (fun r => env.writeFails r)) := by
  induction q generalizing st with
  | nil => simp [processBatch]
  | cons r rs ih =>
    have hstep := async_emit_record env st r
    have hfold : processBatch env st (r :: rs) = processBatch env (async_emit env st r) rs := rfl
    rw [hfold]
    obtain ⟨ih1, ih2⟩ := ih (async_emit env st r)
    constructor
    · rw [ih1, hstep.1]
      by_cases hw : env.writeFails r <;> simp [hw]
    · rw [ih2, hstep.2.1]
      by_cases hw : env.writeFails r <;> simp [hw]

theorem cacheGet_mem {α : Type} {c : List (String × α)} {ck : String} {v : α}
    (h : cacheGet c ck = some v) : ∃ p ∈ c, p.1 = ck ∧ p.2 = v := by
  unfold cacheGet at h
  obtain ⟨p, hp, rfl⟩ := Option.map_eq_some'.mp h
  exact ⟨p, List.mem_of_find?_eq_some hp, by simpa using List.find?_some hp, rfl⟩

/-- Determinism unpacking for get_or_create: facts about any successful
result. -/
theorem get_or_create_ok_facts {κ : Type} [DecidableEq κ] {t : Table κ} {k : κ}
    {r : Row κ} {t2 : Table κ} {ops : List (StoreOp κ)}
    (h : get_or_create t k = Except.ok (r, t2, ops)) :
    r.key = k ∧ r ∈ t2.rows ∧ t.rows <+: t2.rows := by
  obtain ⟨r0, t0, ops0, h0, hkey, hmem, hpre, -⟩ := get_or_create_total t k
  rw [h0] at h
  obtain ⟨rfl, rfl, rfl⟩ : r0 = r ∧ t0 = t2 ∧ ops0 = ops := by
    cases h; exact ⟨rfl, rfl, rfl⟩
  exact ⟨hkey, hmem, hpre⟩

/-- Resolution preserves cache-membership coherence: if every cached
row is in the table, the resolved row and every row cached afterwards
are in the (possibly extended) table. -/
theorem resolveDim_mem {κ : Type} [DecidableEq κ] {c : List (String × Row κ)}
    {t : Table κ} {ck : String} {k : κ} {r : Row κ} {c2 : List (String × Row κ)}
    {t2 : Table κ} {ops : List (StoreOp κ)}
    (hc : ∀ p ∈ c, p.2 ∈ t.rows)
    (h : resolveDim c t ck k = Except.ok (r, c2, t2, ops)) :
    r ∈ t2.rows ∧ t.rows <+: t2.rows ∧ (∀ p ∈ c2, p.2 ∈ t2.rows) := by
  unfold resolveDim at h
  cases hcg : cacheGet c ck with
  | some r0 =>
    rw [hcg] at h
    obtain ⟨rfl, rfl, rfl, rfl⟩ : r0 = r ∧ c = c2 ∧ t = t2 ∧ [] = ops := by
      cases h; exact ⟨rfl, rfl, rfl, rfl⟩
    obtain ⟨p, hp, -, hpv⟩ := cacheGet_mem hcg
    exact ⟨hpv ▸ hc p hp, List.prefix_rfl, hc⟩
  | none =>
    rw [hcg] at h
    cases hg : get_or_create t k with
    | error e => rw [hg] at h; cases h
    | ok res =>
      obtain ⟨r0, t0, ops0⟩ := res
      rw [hg] at h
      obtain ⟨rfl, rfl, rfl, rfl⟩ : r0 = r ∧ (ck, r0) :: c = c2 ∧ t0 = t2 ∧ ops0 = ops := by
        cases h; exact ⟨rfl, rfl, rfl, rfl⟩
      obtain ⟨-, hmem, hpre⟩ := get_or_create_ok_facts hg
      refine ⟨hmem, hpre, ?_⟩
      intro p hp
      rcases List.mem_cons.mp hp with rfl | hp2
      · simpa using hmem
      · exact hpre.sublist.subset (hc p hp2)

/-- Resolution preserves cache-key coherence when the cache key equals
the database key (the source, logger, host and tag dimensions). -/
theorem resolveDim_key {c : List (String × Row String)}
    {t : Table String} {k : String} {r : Row String} {c2 : List (String × Row String)}
    {t2 : Table String} {ops : List (StoreOp String)}
    (hc : ∀ p ∈ c, p.2.key = p.1)
    (h : resolveDim c t k k = Except.ok (r, c2, t2, ops)) :
    r.key = k ∧ (∀ p ∈ c2, p.2.key = p.1) := by
  unfold resolveDim at h
  cases hcg : cacheGet c k with
  | some r0 =>
    rw [hcg] at h
    obtain ⟨rfl, rfl, rfl, rfl⟩ : r0 = r ∧ c = c2 ∧ t = t2 ∧ [] = ops := by
      cases h; exact ⟨rfl, rfl, rfl, rfl⟩
    obtain ⟨p, hp, hpk, hpv⟩ := cacheGet_mem hcg
    exact ⟨by rw [← hpv, hc p hp, hpk], hc⟩
  | none =>
    rw [hcg] at h
    cases hg : get_or_create t k with
    | error e => rw [hg] at h; cases h
    | ok res =>
      obtain ⟨r0, t0, ops0⟩ := res
      rw [hg] at h
      obtain ⟨rfl, rfl, rfl, rfl⟩ : r0 = r ∧ (k, r0) :: c = c2 ∧ t0 = t2 ∧ ops0 = ops := by
        cases h; exact ⟨rfl, rfl, rfl, rfl⟩
      obtain ⟨hkey, -, -⟩ := get_or_create_ok_facts hg
      refine ⟨hkey, ?_⟩
      intro p hp
      rcases List.mem_cons.mp hp with rfl | hp2
      · simp [hkey]
      · exact hc p hp2

/-- Facts about the rows picked by dimension resolution, under cache
coherence: each resolved row lives in its table afterwards; the source
row's key is the record's path, the logger row's key is the handler's
configured logger name and the host row's key is the hostname. -/
theorem resolveDims_ok_facts (env : Env) (st : ProcState) (record : LogRecord)
    (hok : CacheOK st)
    {src : Row String} {func : Row FuncKey} {lgr host : Row String} {st4 : ProcState}
    (h : resolveDims env st record = Except.ok (src, func, lgr, host, st4)) :
    src ∈ st4.db.srcT.rows ∧ src.key = record.pathname
    ∧ func ∈ st4.db.funcT.rows
    ∧ lgr ∈ st4.db.loggerT.rows ∧ lgr.key = env.logger_name
    ∧ host ∈ st4.db.hostT.rows ∧ host.key = env.hostname := by
  obtain ⟨hokS, hokF, hokL, hokH, -⟩ := hok
  unfold resolveDims at h
  cases h1 : resolveDim st.caches.src_cache st.db.srcT record.pathname record.pathname with
  | error e => rw [h1] at h; cases h
  | ok res1 =>
    obtain ⟨src1, sC, sT, sOps⟩ := res1
    rw [h1] at h
    dsimp only at h
    obtain ⟨hsMem, -, -⟩ := resolveDim_mem (fun p hp => (hokS p hp).1) h1
    obtain ⟨hsKey, -⟩ := resolveDim_key (fun p hp => (hokS p hp).2) h1
    cases h2 : resolveDim st.caches.func_cache st.db.funcT (func_key record src1.key)
        ⟨record.name ++ "." ++ record.funcName, record.lineno, src1.pk⟩ with
    | error e => rw [h2] at h; cases h
    | ok res2 =>
      obtain ⟨func1, fC, fT, fOps⟩ := res2
      rw [h2] at h
      dsimp only at h
      obtain ⟨hfMem, -, -⟩ := resolveDim_mem hokF h2
      cases h3 : resolveDim st.caches.logger_cache st.db.loggerT env.logger_name
          env.logger_name with
      | error e => rw [h3] at h; cases h
      | ok res3 =>
        obtain ⟨lgr1, lC, lT, lOps⟩ := res3
        rw [h3] at h
        dsimp only at h
        obtain ⟨hlMem, -, -⟩ := resolveDim_mem (fun p hp => (hokL p hp).1) h3
        obtain ⟨hlKey, -⟩ := resolveDim_key (fun p hp => (hokL p hp).2) h3
        cases h4 : resolveDim st.caches.host_cache st.db.hostT env.hostname env.hostname with
        | error e => rw [h4] at h; cases h
        | ok res4 =>
          obtain ⟨host1, hC, hT, hOps⟩ := res4
          rw [h4] at h
          dsimp only at h
          obtain ⟨hhMem, -, -⟩ := resolveDim_mem (fun p hp => (hokH p hp).1) h4
          obtain ⟨hhKey, -⟩ := resolveDim_key (fun p hp => (hokH p hp).2) h4
          simp only [Except.ok.injEq, Prod.mk.injEq] at h
          obtain ⟨rfl, rfl, rfl, rfl, hst⟩ := h
          rw [← hst]
          exact ⟨hsMem, hsKey, hfMem, hlMem, hlKey, hhMem, hhKey⟩

/-- Claim C10: a record with no `tags` attribute is treated as having
an empty tag set: the LogEntry row is still created, its dimension ids
referencing rows present in the function, logger and host tables (with
the source dimension also resolved), no Tag row is resolved or
created, no tag association is inserted, and `add_tags` is invoked
with the empty list without raising (no handleError call). -/
theorem missing_tags_empty_set (env : Env) (st : ProcState) (record : LogRecord)
    (hok : CacheOK st) (htags : record.tags = none)
    (hw : env.writeFails record = false) :
    ∃ e, (async_emit env st record).db.entries = st.db.entries ++ [e]
      ∧ (∃ f, f ∈ (async_emit env st record).db.funcT.rows ∧ f.pk = e.function_id)
      ∧ (∃ l, l ∈ (async_emit env st record).db.loggerT.rows
            ∧ l.pk = e.logger_id ∧ l.key = env.logger_name)
      ∧ (∃ h, h ∈ (async_emit env st record).db.hostT.rows
            ∧ h.pk = e.hostname_id ∧ h.key = env.hostname)
      ∧ (∃ s, s ∈ (async_emit env st record).db.srcT.rows ∧ s.key = record.pathname)
      ∧ (async_emit env st record).db.tagT = st.db.tagT
      ∧ (async_emit env st record).caches.tag_cache = st.caches.tag_cache
      ∧ (async_emit env st record).db.entryTags = st.db.entryTags
      ∧ (async_emit env st record).db.addTagsCalls = st.db.addTagsCalls ++ [(e.pk, [])]
      ∧ (async_emit env st record).errors = st.errors := by
  obtain ⟨src, func, lgr, host, st4, hres, hErr, hEnt, hAtt, hETags, hCalls, hPk, hTagT, hTagC⟩ :=
    resolveDims_total env st record
  obtain ⟨hsMem, hsKey, hfMem, hlMem, hlKey, hhMem, hhKey⟩ :=
    resolveDims_ok_facts env st record hok hres
  unfold async_emit
  rw [hres]
  dsimp only
  rw [if_neg (by rw [hw]; exact Bool.false_ne_true)]
  rw [htags]
  dsimp only [Option.getD]
  dsimp only [resolveTags]
  refine ⟨⟨st4.db.nextEntryPk, record.levelno, record.msg, record.process, record.created,
          func.pk, lgr.pk, host.pk⟩, ?_, ?_, ?_, ?_, ?_, ?_, ?_, ?_, ?_, ?_⟩
  · show st4.db.entries ++ _ = _
    rw [hEnt]
  · exact ⟨func, hfMem, rfl⟩
  · exact ⟨lgr, hlMem, rfl, hlKey⟩
  · exact ⟨host, hhMem, rfl, hhKey⟩
  · exact ⟨src, hsMem, hsKey⟩
  · exact hTagT
  · exact hTagC
  · show st4.db.entryTags ++ _ = _
    simp [hETags]
  · show st4.db.addTagsCalls ++ _ = _
    simp [hCalls]
  · exact hErr

/-- Witness for C10: a fresh handler processing the tagless record
`rOther` creates the entry, calls add_tags with the empty list and
reports no error. -/
theorem missing_tags_empty_set_witness :
    ∃ e, (async_emit envApp initProc rOther).db.entries = initProc.db.entries ++ [e]
      ∧ (∃ f, f ∈ (async_emit envApp initProc rOther).db.funcT.rows ∧ f.pk = e.function_id)
      ∧ (∃ l, l ∈ (async_emit envApp initProc rOther).db.loggerT.rows
            ∧ l.pk = e.logger_id ∧ l.key = envApp.logger_name)
      ∧ (∃ h, h ∈ (async_emit envApp initProc rOther).db.hostT.rows
            ∧ h.pk = e.hostname_id ∧ h.key = envApp.hostname)
      ∧ (∃ s, s ∈ (async_emit envApp initProc rOther).db.srcT.rows ∧ s.key = rOther.pathname)
      ∧ (async_emit envApp initProc rOther).db.tagT = initProc.db.tagT
      ∧ (async_emit envApp initProc rOther).caches.tag_cache = initProc.caches.tag_cache
      ∧ (async_emit envApp initProc rOther).db.entryTags = initProc.db.entryTags
      ∧ (async_emit envApp initProc rOther).db.addTagsCalls
          = initProc.db.addTagsCalls ++ [(e.pk, [])]
      ∧ (async_emit envApp initProc rOther).errors = initProc.errors :=
  missing_tags_empty_set envApp initProc rOther
    (by simp [CacheOK, initProc, emptyCaches]) rfl rfl

theorem resolveDim_empty {κ : Type} [DecidableEq κ] (t : Table κ) (ck : String) (k : κ) :
    ∃ r t2 ops, resolveDim [] t ck k = Except.ok (r, [(ck, r)], t2, ops) ∧ r.key = k := by
  unfold resolveDim
  have hcg : cacheGet ([] : List (String × Row κ)) ck = none := rfl
  rw [hcg]
  obtain ⟨r, t2, ops, hg, hkey, -, -, -⟩ := get_or_create_total t k
  exact ⟨r, t2, ops, by rw [hg], hkey⟩

/-- On a fresh handler, dimension resolution caches the function row
under `func_key record record.pathname` (built from the record's own
`name`) and the logger row under the handler's configured
`logger_name`. -/
theorem resolveDims_empty (env : Env) (st : ProcState) (record : LogRecord)
    (h : st.caches = emptyCaches) :
    ∃ src func lgr host st4,
      resolveDims env st record = Except.ok (src, func, lgr, host, st4)
      ∧ st4.caches.func_cache = [(func_key record record.pathname, func)]
      ∧ st4.caches.logger_cache = [(env.logger_name, lgr)] := by
  unfold resolveDims
  rw [h]
  dsimp only [emptyCaches]
  obtain ⟨src, sT, sOps, hs, hsKey⟩ :=
    resolveDim_empty st.db.srcT record.pathname record.pathname
  rw [hs]
  dsimp only
  obtain ⟨func, fT, fOps, hf, -⟩ :=
    resolveDim_empty st.db.funcT (func_key record src.key)
      (⟨record.name ++ "." ++ record.funcName, record.lineno, src.pk⟩ : FuncKey)
  rw [hf]
  dsimp only
  obtain ⟨lgr, lT, lOps, hl, -⟩ :=
    resolveDim_empty st.db.loggerT env.logger_name env.logger_name
  rw [hl]
  dsimp only
  obtain ⟨host, hT, hOps, hh, -⟩ :=
    resolveDim_empty st.db.hostT env.hostname env.hostname
  rw [hh]
  dsimp only
  refine ⟨src, func, lgr, host, _, rfl, ?_, rfl⟩
  rw [hsKey]

/-- Claim C6, counterexample: the function natural key embeds the
record's own `name` field, not the handler's configured logger
identity.  Processing the record `rOther` (name "other") on a handler
configured with logger name "app" caches the function under
"other.f:1@/a.py", not under "app.f:1@/a.py" as the claim predicts,
while the logger dimension is cached under "app" — the two identities
differ for this record. -/
theorem func_key_not_logger_name :
    (async_emit envApp initProc rOther).caches.func_cache.map Prod.fst
        = ["other.f:1@/a.py"]
    ∧ (async_emit envApp initProc rOther).caches.logger_cache.map Prod.fst = ["app"]
    ∧ ¬ ((async_emit envApp initProc rOther).caches.func_cache.map Prod.fst
        = ["app.f:1@/a.py"]) := by
  refine ⟨by rfl, by rfl, ?_⟩
  intro hcontra
  rw [show (async_emit envApp initProc rOther).caches.func_cache.map Prod.fst
      = ["other.f:1@/a.py"] from rfl] at hcontra
  simp at hcontra

/-- Claim C6 as amended: for every record, the LoggerName dimension is
resolved under the sink's configured logger identity (the `name`
passed at construction), while the Function natural key is
"{record.name}.{func_name}:{line}@{source_path}", built from the
record's own `name` field — which may differ from the sink's logger
identity. -/
theorem logger_dim_and_func_key_actual (env : Env) (st : ProcState) (record : LogRecord)
    (h : st.caches = emptyCaches) :
    (async_emit env st record).caches.logger_cache.map Prod.fst = [env.logger_name]
    ∧ (async_emit env st record).caches.func_cache.map Prod.fst
        = [func_key record record.pathname]
    ∧ func_key record record.pathname
        = record.name ++ "." ++ record.funcName ++ ":"
          ++ toString record.lineno ++ "@" ++ record.pathname := by
  obtain ⟨src, func, lgr, host, st4, hres, hfc, hlc⟩ := resolveDims_empty env st record h
  unfold async_emit
  rw [hres]
  dsimp only
  by_cases hw : env.writeFails record
  · simp [hw, hfc, hlc, func_key]
  · simp only [hw, Bool.false_eq_true, if_false]
    obtain ⟨tags, tC, tT, htg⟩ :=
      resolveTags_total (record.tags.getD []) st4.caches.tag_cache st4.db.tagT
    rw [htg]
    dsimp only
    simp [hfc, hlc, func_key]

/-- Witness for the amended C6 on a fresh handler and the record
`rOther`. -/
theorem logger_dim_and_func_key_actual_witness :
    (async_emit envApp initProc rOther).caches.logger_cache.map Prod.fst
        = [envApp.logger_name]
    ∧ (async_emit envApp initProc rOther).caches.func_cache.map Prod.fst
        = [func_key rOther rOther.pathname]
    ∧ func_key rOther rOther.pathname
        = rOther.name ++ "." ++ rOther.funcName ++ ":"
          ++ toString rOther.lineno ++ "@" ++ rOther.pathname :=
  logger_dim_and_func_key_actual envApp initProc rOther rfl

theorem sumPc_append (f : DrainPC → Nat) (ts1 ts2 : List DrainPC) :
    sumPc f (ts1 ++ ts2) = sumPc f ts1 + sumPc f ts2 := by
  simp [sumPc]

theorem sumPc_set (f : DrainPC → Nat) (ts : List DrainPC) :
    ∀ (i : Nat) (pc pc2 : DrainPC), ts[i]? = some pc →
      sumPc f (ts.set i pc2) + f pc = sumPc f ts + f pc2 := by
  induction ts with
  | nil => intro i pc pc2 h; simp at h
  | cons a ts ih =>
    intro i pc pc2 h
    cases i with
    | zero =>
      simp only [List.getElem?_cons_zero, Option.some.injEq] at h
      subst h
      simp [sumPc]
      omega
    | succ n =>
      simp only [List.getElem?_cons_succ] at h
      have := ih n pc pc2 h
      simp only [List.set, sumPc, List.map_cons, List.sum_cons] at this ⊢
      omega

theorem sumPc_le (f : DrainPC → Nat) (ts : List DrainPC) :
    ∀ (i : Nat) (pc : DrainPC), ts[i]? = some pc → f pc ≤ sumPc f ts := by
  induction ts with
  | nil => intro i pc h; simp at h
  | cons a ts ih =>
    intro i pc h
    cases i with
    | zero =>
      simp only [List.getElem?_cons_zero, Option.some.injEq] at h
      subst h
      simp only [sumPc, List.map_cons, List.sum_cons]
      omega
    | succ n =>
      simp only [List.getElem?_cons_succ] at h
      have := ih n pc h
      simp only [sumPc, List.map_cons, List.sum_cons] at this ⊢
      omega

theorem sumPc_zero (f : DrainPC → Nat) (ts : List DrainPC)
    (h : ∀ pc ∈ ts, f pc = 0) : sumPc f ts = 0 := by
  simp only [sumPc]
  apply List.sum_eq_zero
  intro x hx
  obtain ⟨pc, hpc, rfl⟩ := List.mem_map.mp hx
  exact h pc hpc

theorem invC3_init : InvC3 initSys := by
  constructor <;> simp [initSys, initProc, initDB, sumPc]

theorem invC3_step (env : Env) (s : Sys) (e : Event) (hI : InvC3 s) :
    InvC3 (step env s e) := by
  obtain ⟨h1, h2⟩ := hI
  cases e with
  | push t r =>
    simp only [step]
    by_cases hL : s.lockOwner = none ∨ s.lockOwner = some t
    · rw [if_pos hL]
      try dsimp only
      by_cases hE : s.emitter
      · simp only [hE, if_true]
        constructor
        · try dsimp only
          rw [← List.append_assoc, h1]
        · try dsimp only
          simp only [List.length_append, List.length_cons, List.length_nil]
          omega
      · simp only [hE, if_false, Bool.false_eq_true]
        constructor
        · try dsimp only
          rw [← List.append_assoc, h1]
        · try dsimp only
          rw [sumPc_append]
          simp only [List.length_append, List.length_cons, List.length_nil]
          have hz : sumPc pendPc [DrainPC.start] = 0 := by simp [sumPc, pendPc]
          omega
    · rw [if_neg hL]
      exact ⟨h1, h2⟩
  | drain i =>
    simp only [step]
    cases h : s.tasks[i]? with
    | none => exact ⟨h1, h2⟩
    | some pc =>
      try dsimp only
      cases pc with
      | start =>
        simp only [drainStep]
        by_cases hc : s.dbConn
        · rw [if_pos hc]
          have hs := sumPc_set pendPc s.tasks i DrainPC.start DrainPC.loopCheck h
          simp only [pendPc] at hs
          exact ⟨h1, by try dsimp only; omega⟩
        · rw [if_neg hc]
          have hs := sumPc_set pendPc s.tasks i DrainPC.start DrainPC.connecting h
          simp only [pendPc] at hs
          exact ⟨h1, by try dsimp only; omega⟩
      | connecting =>
        simp only [drainStep]
        by_cases hc : env.connectFails
        · rw [if_pos hc]
          have hs := sumPc_set pendPc s.tasks i DrainPC.connecting DrainPC.crashed h
          simp only [pendPc] at hs
          exact ⟨h1, by try dsimp only; omega⟩
        · rw [if_neg hc]
          have hs := sumPc_set pendPc s.tasks i DrainPC.connecting DrainPC.loopCheck h
          simp only [pendPc] at hs
          exact ⟨h1, by try dsimp only; omega⟩
      | loopCheck =>
        simp only [drainStep]
        by_cases hq : s.queue.isEmpty
        · rw [if_pos hq]
          have hs := sumPc_set pendPc s.tasks i DrainPC.loopCheck DrainPC.clearing h
          simp only [pendPc] at hs
          exact ⟨h1, by try dsimp only; omega⟩
        · rw [if_neg hq]
          have hs := sumPc_set pendPc s.tasks i DrainPC.loopCheck DrainPC.swapStep h
          simp only [pendPc] at hs
          exact ⟨h1, by try dsimp only; omega⟩
      | swapStep =>
        simp only [drainStep]
        have hs := sumPc_set pendPc s.tasks i DrainPC.swapStep (DrainPC.processing s.queue) h
        simp only [pendPc] at hs
        constructor
        · try dsimp only
          simp only [List.flatten_append, List.flatten_cons, List.flatten_nil,
            List.append_nil]
          exact h1
        · try dsimp only
          simp only [List.length_nil]
          omega
      | processing b =>
        cases b with
        | nil =>
          simp only [drainStep]
          have hs := sumPc_set pendPc s.tasks i (DrainPC.processing []) DrainPC.loopCheck h
          simp only [pendPc, List.length_nil] at hs
          exact ⟨h1, by try dsimp only; omega⟩
        | cons r rest =>
          simp only [drainStep]
          have hs := sumPc_set pendPc s.tasks i (DrainPC.processing (r :: rest))
            (DrainPC.processing rest) h
          simp only [pendPc, List.length_cons] at hs
          have ha := (async_emit_record env s.proc r).2.2
          exact ⟨h1, by try dsimp only; omega⟩
      | clearing =>
        simp only [drainStep]
        have hs := sumPc_set pendPc s.tasks i DrainPC.clearing DrainPC.done h
        simp only [pendPc] at hs
        exact ⟨h1, by try dsimp only; omega⟩
      | done =>
        simp only [drainStep]
        have hs := sumPc_set pendPc s.tasks i DrainPC.done DrainPC.done h
        simp only [pendPc] at hs
        exact ⟨h1, by try dsimp only; omega⟩
      | crashed =>
        simp only [drainStep]
        have hs := sumPc_set pendPc s.tasks i DrainPC.crashed DrainPC.crashed h
        simp only [pendPc] at hs
        exact ⟨h1, by try dsimp only; omega⟩

theorem invC3_run (env : Env) (tr : List Event) : InvC3 (run env tr) := by
  suffices h : ∀ (l : List Event) (s : Sys), InvC3 s → InvC3 (l.foldl (step env) s) by
    exact h tr initSys invC3_init
  intro l
  induction l with
  | nil => intro s hs; exact hs
  | cons e l ih => intro s hs; exact ih _ (invC3_step env s e hs)

theorem invC5_init : InvC5 initSys := by
  constructor <;> simp [initSys, sumPc]

theorem invC5_step (env : Env) (s : Sys) (e : Event) (hI : InvC5 s) :
    InvC5 (step env s e) := by
  obtain ⟨h1, h2⟩ := hI
  cases e with
  | push t r =>
    simp only [step]
    by_cases hL : s.lockOwner = none ∨ s.lockOwner = some t
    · rw [if_pos hL]
      try dsimp only
      by_cases hE : s.emitter
      · simp only [hE, if_true]
        exact ⟨h1, by simp [hE]⟩
      · simp only [hE, if_false, Bool.false_eq_true]
        have hz : sumPc actPc s.tasks = 0 := h2 (Bool.not_eq_true s.emitter ▸ by
          simpa using hE)
        constructor
        · try dsimp only
          rw [sumPc_append, hz]
          simp [sumPc, actPc]
        · intro hc
          simp at hc
    · rw [if_neg hL]
      exact ⟨h1, h2⟩
  | drain i =>
    simp only [step]
    cases h : s.tasks[i]? with
    | none => exact ⟨h1, h2⟩
    | some pc =>
      try dsimp only
      cases hE : s.emitter with
      | false =>
        have hz : sumPc actPc s.tasks = 0 := h2 hE
        have hle := sumPc_le actPc s.tasks i pc h
        rw [hz] at hle
        cases pc with
        | done =>
          have hs := sumPc_set actPc s.tasks i DrainPC.done DrainPC.done h
          simp only [drainStep]
          refine ⟨by try dsimp only; simp only [actPc] at hs; omega, fun _ => ?_⟩
          try dsimp only
          simp only [actPc] at hs
          omega
        | crashed =>
          have hs := sumPc_set actPc s.tasks i DrainPC.crashed DrainPC.crashed h
          simp only [drainStep]
          refine ⟨by try dsimp only; simp only [actPc] at hs; omega, fun _ => ?_⟩
          try dsimp only
          simp only [actPc] at hs
          omega
        | start => simp [actPc] at hle
        | connecting => simp [actPc] at hle
        | loopCheck => simp [actPc] at hle
        | swapStep => simp [actPc] at hle
        | processing b => simp [actPc] at hle
        | clearing => simp [actPc] at hle
      | true =>
        cases pc with
        | start =>
          simp only [drainStep]
          by_cases hc : s.dbConn
          · rw [if_pos hc]
            have hs := sumPc_set actPc s.tasks i DrainPC.start DrainPC.loopCheck h
            simp only [actPc] at hs
            exact ⟨by try dsimp only; omega, by try dsimp only; rw [hE]; intro hc2; cases hc2⟩
          · rw [if_neg hc]
            have hs := sumPc_set actPc s.tasks i DrainPC.start DrainPC.connecting h
            simp only [actPc] at hs
            exact ⟨by try dsimp only; omega, by try dsimp only; rw [hE]; intro hc2; cases hc2⟩
        | connecting =>
          simp only [drainStep]
          by_cases hc : env.connectFails
          · rw [if_pos hc]
            have hs := sumPc_set actPc s.tasks i DrainPC.connecting DrainPC.crashed h
            simp only [actPc] at hs
            exact ⟨by try dsimp only; omega, by try dsimp only; rw [hE]; intro hc2; cases hc2⟩
          · rw [if_neg hc]
            have hs := sumPc_set actPc s.tasks i DrainPC.connecting DrainPC.loopCheck h
            simp only [actPc] at hs
            exact ⟨by try dsimp only; omega, by try dsimp only; rw [hE]; intro hc2; cases hc2⟩
        | loopCheck =>
          simp only [drainStep]
          by_cases hq : s.queue.isEmpty
          · rw [if_pos hq]
            have hs := sumPc_set actPc s.tasks i DrainPC.loopCheck DrainPC.clearing h
            simp only [actPc] at hs
            exact ⟨by try dsimp only; omega, by try dsimp only; rw [hE]; intro hc2; cases hc2⟩
          · rw [if_neg hq]
            have hs := sumPc_set actPc s.tasks i DrainPC.loopCheck DrainPC.swapStep h
            simp only [actPc] at hs
            exact ⟨by try dsimp only; omega, by try dsimp only; rw [hE]; intro hc2; cases hc2⟩
        | swapStep =>
          simp only [drainStep]
          have hs := sumPc_set actPc s.tasks i DrainPC.swapStep (DrainPC.processing s.queue) h
          simp only [actPc] at hs
          exact ⟨by try dsimp only; omega, by try dsimp only; rw [hE]; intro hc2; cases hc2⟩
        | processing b =>
          cases b with
          | nil =>
            simp only [drainStep]
            have hs := sumPc_set actPc s.tasks i (DrainPC.processing []) DrainPC.loopCheck h
            simp only [actPc] at hs
            exact ⟨by try dsimp only; omega, by try dsimp only; rw [hE]; intro hc2; cases hc2⟩
          | cons r rest =>
            simp only [drainStep]
            have hs := sumPc_set actPc s.tasks i (DrainPC.processing (r :: rest))
              (DrainPC.processing rest) h
            simp only [actPc] at hs
            exact ⟨by try dsimp only; omega, by try dsimp only; rw [hE]; intro hc2; cases hc2⟩
        | clearing =>
          simp only [drainStep]
          have hs := sumPc_set actPc s.tasks i DrainPC.clearing DrainPC.done h
          simp only [actPc] at hs
          have hle := sumPc_le actPc s.tasks i DrainPC.clearing h
          simp only [actPc] at hle
          exact ⟨by try dsimp only; omega, fun _ => by try dsimp only; omega⟩
        | done =>
          simp only [drainStep]
          have hs := sumPc_set actPc s.tasks i DrainPC.done DrainPC.done h
          simp only [actPc] at hs
          exact ⟨by try dsimp only; omega, by try dsimp only; rw [hE]; intro hc2; cases hc2⟩
        | crashed =>
          simp only [drainStep]
          have hs := sumPc_set actPc s.tasks i DrainPC.crashed DrainPC.crashed h
          simp only [actPc] at hs
          exact ⟨by try dsimp only; omega, by try dsimp only; rw [hE]; intro hc2; cases hc2⟩

theorem invC5_run (env : Env) (tr : List Event) : InvC5 (run env tr) := by
  suffices h : ∀ (l : List Event) (s : Sys), InvC5 s → InvC5 (l.foldl (step env) s) by
    exact h tr initSys invC5_init
  intro l
  induction l with
  | nil => intro s hs; exact hs
  | cons e l ih => intro s hs; exact ih _ (invC5_step env s e hs)

/-- Claim C5: for any sequence of interleaved accept calls and drain
steps, at most one drain task is ever live (spawned and not yet exited
or crashed) at a time.  The spawn decision and the `self.emitter`
update happen inside the same lock section as the queue append, so they
are one atomic step of the model, and a new task is spawned only by a
push that observes no active task. -/
theorem at_most_one_active_drain (env : Env) (tr : List Event) :
    sumPc actPc (run env tr).tasks ≤ 1 :=
  (invC5_run env tr).1

/-- Claim C3: the drain task's queue swap is one atomic step under the
same lock as push (`drainHoldsLock .swapStep` and `pushHoldsLock`), and
for every interleaving of pushes and drain steps each accepted record
lands in exactly one drained batch or is still queued — the drained
batches concatenated with the current queue are exactly the accepted
records, in order, never lost or duplicated.  Consequently, once the
system is idle (every spawned task has exited or crashed and the queue
is empty), the number of entry writes attempted equals the number of
accepted records. -/
theorem drain_exactly_once_delivery (env : Env) (tr : List Event) :
    (pushHoldsLock = true ∧ drainHoldsLock DrainPC.swapStep = true)
    ∧ ((run env tr).batches.flatten ++ (run env tr).queue = (run env tr).pushed)
    ∧ ((∀ pc ∈ (run env tr).tasks, pc = DrainPC.done ∨ pc = DrainPC.crashed) →
        (run env tr).queue = [] →
        (run env tr).proc.db.entryWriteAttempts = (run env tr).pushed.length) := by
  obtain ⟨h1, h2⟩ := invC3_run env tr
  refine ⟨⟨rfl, rfl⟩, h1, fun hIdle hQ => ?_⟩
  have hz : sumPc pendPc (run env tr).tasks = 0 := by
    apply sumPc_zero
    intro pc hpc
    rcases hIdle pc hpc with rfl | rfl <;> rfl
  rw [hQ] at h2
  simp only [List.length_nil] at h2
  omega

/-- Witness for C3: on the concrete idle run `trIdle`, both accepted
records are delivered and exactly two entry writes are attempted. -/
theorem drain_exactly_once_delivery_witness :
    ((run envApp trIdle).batches.flatten ++ (run envApp trIdle).queue
        = (run envApp trIdle).pushed)
    ∧ (run envApp trIdle).proc.db.entryWriteAttempts = (run envApp trIdle).pushed.length := by
  have h := drain_exactly_once_delivery envApp trIdle
  exact ⟨h.2.1, h.2.2 (by decide) (by decide)⟩

/-- Claim C4, counterexample: the statement `self.emitter = None` on
async_handler.py line 83, the step a drain task takes from `clearing`
after finding the queue empty, is executed without holding the handler
lock — refuting the claim that the flag is cleared under the same lock
used by emit and never written outside it. -/
theorem emitter_cleared_without_lock : drainHoldsLock DrainPC.clearing = false := rfl

/-- Claim C4 as amended: emit reads and writes the emitter flag under
the handler lock, and the connect and queue-swap sections of the drain
task run under that same lock, but the drain task clears the emitter
flag (line 83) — and re-reads the queue length (line 74) — without
holding the lock. -/
theorem lock_discipline_actual :
    pushHoldsLock = true
    ∧ drainHoldsLock DrainPC.connecting = true
    ∧ drainHoldsLock DrainPC.swapStep = true
    ∧ drainHoldsLock DrainPC.loopCheck = false
    ∧ drainHoldsLock DrainPC.clearing = false :=
  ⟨rfl, rfl, rfl, rfl, rfl⟩

/-- Claim C8, counterexample: while the drain task holds the handler
lock across the storage connect (it is suspended at `await connect`,
async_handler.py lines 70-72), an accept from a producer thread blocks
on `acquire` and makes no progress — its record is not appended — so
accept does not return after a bounded number of queue operations
regardless of storage latency. -/
theorem push_blocked_during_connect :
    (run envApp trConn).lockOwner = some Thread.eventLoop
    ∧ step envApp (run envApp trConn) (Event.push Thread.producer recB)
        = run envApp trConn := by
  decide

/-- Claim C8 as amended: accept performs no storage operation and
never suspends — whenever the handler lock is free or held reentrantly
by the calling thread, it appends exactly its record to the queue and
leaves the database, the drained batches, the connection state and the
lock untouched, never raising.  Only a caller on another thread while
the drain task holds the lock across the storage connect is blocked. -/
theorem push_nonblocking_when_lock_available (env : Env) (s : Sys) (t : Thread)
    (r : LogRecord) (h : s.lockOwner = none ∨ s.lockOwner = some t) :
    (step env s (Event.push t r)).queue = s.queue ++ [r]
    ∧ (step env s (Event.push t r)).proc = s.proc
    ∧ (step env s (Event.push t r)).batches = s.batches
    ∧ (step env s (Event.push t r)).dbConn = s.dbConn
    ∧ (step env s (Event.push t r)).lockOwner = s.lockOwner := by
  simp only [step]
  rw [if_pos h]
  refine ⟨?_, ?_, ?_, ?_, ?_⟩ <;> (split <;> rfl)

/-- Witness for the amended C8 on a fresh handler. -/
theorem push_nonblocking_when_lock_available_witness :
    (step envApp initSys (Event.push Thread.producer recB)).queue = initSys.queue ++ [recB]
    ∧ (step envApp initSys (Event.push Thread.producer recB)).proc = initSys.proc
    ∧ (step envApp initSys (Event.push Thread.producer recB)).batches = initSys.batches
    ∧ (step envApp initSys (Event.push Thread.producer recB)).dbConn = initSys.dbConn
    ∧ (step envApp initSys (Event.push Thread.producer recB)).lockOwner = initSys.lockOwner :=
  push_nonblocking_when_lock_available envApp initSys Thread.producer recB (Or.inl rfl)

/-- Claim C9, counterexample: after the connect raises the task is
dead, `self.emitter` still holds the dead task, and the handler lock —
acquired on line 70 and never released because there is no try/finally
around the connect — is still held by the event-loop thread.  An accept
from a producer thread therefore blocks forever in `acquire` and never
enqueues its record, refuting the part of the claim that says every
subsequent accept call enqueues its record. -/
theorem crashed_drain_blocks_producer_push :
    (run envFail trFail).tasks = [DrainPC.crashed]
    ∧ (run envFail trFail).emitter = true
    ∧ (run envFail trFail).lockOwner = some Thread.eventLoop
    ∧ step envFail (run envFail trFail) (Event.push Thread.producer recB)
        = run envFail trFail := by
  decide

/-- A push never spawns a task while the emitter flag is set. -/
theorem push_no_spawn (env : Env) (s : Sys) (t : Thread) (r : LogRecord)
    (hE : s.emitter = true) : (step env s (Event.push t r)).tasks = s.tasks := by
  simp only [step]
  by_cases hL : s.lockOwner = none ∨ s.lockOwner = some t
  · rw [if_pos hL]
    simp [hE]
  · rw [if_neg hL]

/-- A push from a thread that can take the lock appends its record. -/
theorem push_enqueues (env : Env) (s : Sys) (t : Thread) (r : LogRecord)
    (hL : s.lockOwner = none ∨ s.lockOwner = some t) :
    (step env s (Event.push t r)).queue = s.queue ++ [r] := by
  simp only [step]
  rw [if_pos hL]
  split <;> rfl

theorem invC9_init : InvC9 initSys := by
  refine ⟨rfl, rfl, rfl, rfl, ?_, ?_, ?_, Or.inl rfl⟩
  · simp [initSys]
  · intro pc hpc
    simp [initSys] at hpc
  · simp [initSys]

theorem invC9_step (env : Env) (hcf : env.connectFails = true) (s : Sys) (e : Event)
    (hI : InvC9 s) : InvC9 (step env s e) := by
  obtain ⟨hP, hB, hQ, hD, hL1, hMem, hIff, hLock⟩ := hI
  cases e with
  | push t r =>
    simp only [step]
    by_cases hL : s.lockOwner = none ∨ s.lockOwner = some t
    · rw [if_pos hL]
      try dsimp only
      by_cases hE : s.emitter
      · simp only [hE, if_true]
        refine ⟨hP, hB, ?_, hD, hL1, hMem, ?_, hLock⟩
        · try dsimp only
          rw [hQ]
        · try dsimp only
          simp only [hE]
          constructor
          · intro
            exact hIff.mp hE
          · intro
            trivial
      · simp only [hE, if_false, Bool.false_eq_true]
        have hTnil : s.tasks = [] := by
          by_contra hc
          have := hIff.mpr hc
          rw [this] at hE
          exact hE rfl
        refine ⟨hP, hB, ?_, hD, ?_, ?_, ?_, hLock⟩
        · try dsimp only
          rw [hQ]
        · simp [hTnil]
        · intro pc hpc
          rw [hTnil] at hpc
          simp at hpc
          simp [hpc]
        · simp [hTnil]
    · rw [if_neg hL]
      exact ⟨hP, hB, hQ, hD, hL1, hMem, hIff, hLock⟩
  | drain i =>
    simp only [step]
    cases h : s.tasks[i]? with
    | none => exact ⟨hP, hB, hQ, hD, hL1, hMem, hIff, hLock⟩
    | some pc =>
      try dsimp only
      have hpcMem : pc ∈ s.tasks := by
        obtain ⟨hlt, hget⟩ := List.getElem?_eq_some.mp h
        exact hget ▸ List.getElem_mem hlt
      have hne : s.tasks ≠ [] := by
        intro hc
        rw [hc] at hpcMem
        simp at hpcMem
      have hlenset : ∀ pc2 : DrainPC, (s.tasks.set i pc2).length = s.tasks.length :=
        fun pc2 => List.length_set s.tasks i pc2
      have hneset : ∀ pc2 : DrainPC, s.tasks.set i pc2 ≠ [] := by
        intro pc2 hc
        have h0 := hlenset pc2
        rw [hc] at h0
        simp only [List.length_nil] at h0
        exact hne (List.length_eq_zero.mp h0.symm)
      have hmemset : ∀ pc2 : DrainPC,
          (pc2 = DrainPC.start ∨ pc2 = DrainPC.connecting ∨ pc2 = DrainPC.crashed) →
          ∀ q ∈ s.tasks.set i pc2,
            q = DrainPC.start ∨ q = DrainPC.connecting ∨ q = DrainPC.crashed := by
        intro pc2 hpc2 q hq
        rcases List.mem_or_eq_of_mem_set hq with hq2 | rfl
        · exact hMem q hq2
        · exact hpc2
      rcases hMem pc hpcMem with rfl | rfl | rfl
      · simp only [drainStep]
        rw [if_neg (by rw [hD]; exact Bool.false_ne_true)]
        refine ⟨hP, hB, hQ, hD, ?_, ?_, ?_, Or.inr rfl⟩
        · try dsimp only
          rw [hlenset]
          exact hL1
        · exact hmemset DrainPC.connecting (Or.inr (Or.inl rfl))
        · try dsimp only
          constructor
          · intro
            exact hneset DrainPC.connecting
          · intro
            exact hIff.mpr hne
      · simp only [drainStep]
        rw [if_pos hcf]
        refine ⟨hP, hB, hQ, hD, ?_, ?_, ?_, hLock⟩
        · try dsimp only
          rw [hlenset]
          exact hL1
        · exact hmemset DrainPC.crashed (Or.inr (Or.inr rfl))
        · try dsimp only
          constructor
          · intro
            exact hneset DrainPC.crashed
          · intro
            exact hIff.mpr hne
      · simp only [drainStep]
        refine ⟨hP, hB, hQ, hD, ?_, ?_, ?_, hLock⟩
        · try dsimp only
          rw [hlenset]
          exact hL1
        · exact hmemset DrainPC.crashed (Or.inr (Or.inr rfl))
        · try dsimp only
          constructor
          · intro
            exact hneset DrainPC.crashed
          · intro
            exact hIff.mpr hne

theorem invC9_run (env : Env) (hcf : env.connectFails = true) (tr : List Event) :
    InvC9 (run env tr) := by
  suffices h : ∀ (l : List Event) (s : Sys), InvC9 s → InvC9 (l.foldl (step env) s) by
    exact h tr initSys invC9_init
  intro l
  induction l with
  | nil => intro s hs; exact hs
  | cons e l ih => intro s hs; exact ih _ (invC9_step env hcf s e hs)

/-- Claim C9 as amended: if the lazy storage connect raises, the
exception kills the drain task, the emitter field is never reset, and
the lock taken before the connect is never released.  Thereafter, for
any interleaving: nothing is ever written (the processing state stays
initial), no batch is ever drained, every accepted record stays queued,
at most one drain task is ever spawned, a push that observes the set
emitter flag never spawns another task, and an accept from the
event-loop thread still enqueues its record — while an accept from any
other thread can be blocked on the leaked lock (see the
counterexample). -/
theorem connect_failure_wedges_sink (logn hn : String) (wf : LogRecord → Bool)
    (tr : List Event) :
    (run ⟨logn, hn, wf, true⟩ tr).proc = initProc
    ∧ (run ⟨logn, hn, wf, true⟩ tr).batches = []
    ∧ (run ⟨logn, hn, wf, true⟩ tr).queue = (run ⟨logn, hn, wf, true⟩ tr).pushed
    ∧ (run ⟨logn, hn, wf, true⟩ tr).tasks.length ≤ 1
    ∧ ((run ⟨logn, hn, wf, true⟩ tr).emitter = true →
        ∀ t r, (step ⟨logn, hn, wf, true⟩ (run ⟨logn, hn, wf, true⟩ tr)
            (Event.push t r)).tasks = (run ⟨logn, hn, wf, true⟩ tr).tasks)
    ∧ (∀ r, (step ⟨logn, hn, wf, true⟩ (run ⟨logn, hn, wf, true⟩ tr)
          (Event.push Thread.eventLoop r)).queue
        = (run ⟨logn, hn, wf, true⟩ tr).queue ++ [r]) := by
  obtain ⟨hP, hB, hQ, hD, hL1, hMem, hIff, hLock⟩ :=
    invC9_run ⟨logn, hn, wf, true⟩ rfl tr
  refine ⟨hP, hB, hQ, hL1, ?_, ?_⟩
  · intro hE t r
    exact push_no_spawn _ _ t r hE
  · intro r
    apply push_enqueues
    rcases hLock with hl | hl
    · exact Or.inl hl
    · exact Or.inr hl

/-- Witness for the amended C9 on the concrete crashed run. -/
theorem connect_failure_wedges_sink_witness :
    (run envFail trFail).proc = initProc
    ∧ (run envFail trFail).queue = (run envFail trFail).pushed := by
  have h := connect_failure_wedges_sink "app" "host1" (fun _ => false) trFail
  exact ⟨h.1, h.2.2.1⟩

end DBLogger

